import Mathlib

/-!
Verification development for the Scholarly Citation-Oriented Paper Explorer.

Shallow embedding of the repository's core components:
* `server/services/retrieval.py` — retrieval expansion state machine,
  document aggregation, Reciprocal Rank Fusion, retrieval service;
* `server/services/citationNetwork.py` — citation graph and weighted PageRank
  (networkx `DiGraph` / `pagerank` semantics embedded explicitly);
* `server/main.py` — the `/search` endpoint composition.

Machine floats are modelled as exact rationals (`ℚ`); Python exceptions as
`Except`/`Option` results; Python dicts and sets as association lists / deduped
lists (only sizes and lookups of those containers matter to the claims).
-/

namespace PaperExplorer

/-- A retrieved chunk: its text payload and its `doc_id` metadata entry
(`none` models a chunk whose metadata has no `doc_id` key). -/
structure Chunk where
  text : String
  doc_id : Option String
deriving DecidableEq, Repr

/-- Result element of `vector_store.similarity_search_with_score`:
a `(chunk, similarity_distance)` pair. -/
abbrev ScoredChunk := Chunk × ℚ

/-- Python exceptions that the modelled code can raise. -/
inductive ExecErr where
  | recursionError
  | typeError
  | valueError
  | zeroDivisionError
  | attributeError
deriving DecidableEq, Repr

/-- The `RetrievalState` TypedDict of `retrieval.py`. -/
structure RState where
  query : String
  k : Nat
  expanded_k : Nat
  k_docs : Nat
  retrieved_chunks : List ScoredChunk
  documents : List (String × List ScoredChunk)
deriving DecidableEq, Repr

/-- The external similarity-search collaborator:
`search(query, k)` returns a list of scored chunks. -/
abbrev Search := String → Nat → List ScoredChunk

/-- Node `initial_retrieval`: first vector search at breadth `k`. -/
def initial_retrieval (search : Search) (s : RState) : RState :=
  { s with retrieved_chunks := search s.query s.k }

/-- Node `expand_k`: `expanded = state["k"] + 25` (computed from the initial
`k` every time, not from the previous `expanded_k`). -/
def expand_k (s : RState) : RState :=
  { s with expanded_k := s.k + 25 }

/-- Node `expanded_retrieval`: re-query at breadth `expanded_k` and append
the new chunks to the accumulated list. -/
def expanded_retrieval (search : Search) (s : RState) : RState :=
  { s with retrieved_chunks := s.retrieved_chunks ++ search s.query s.expanded_k }

/-- Node `aggregate_documents`.  The source executes
`doc_map[doc_id].append(chunk, score)` inside the loop over
`retrieved_chunks`; `list.append` takes exactly one argument, so the first
loop iteration raises `TypeError`.  With no chunks the loop body never runs
and the empty `defaultdict` is returned. -/
def aggregate_documents (s : RState) : Except ExecErr RState :=
  match s.retrieved_chunks with
  | [] => .ok { s with documents := [] }
  | _ :: _ => .error .typeError

/-- The set `{chunk.metadata.get("doc_id") for chunk, _ in retrieved_chunks}`
of `should_expand`, modelled as a deduplicated list (only membership and
cardinality are used). -/
def unique_docs (s : RState) : List (Option String) :=
  (s.retrieved_chunks.map (fun c => c.1.doc_id)).dedup

/-- Conditional-edge decision `should_expand`. -/
def should_expand (s : RState) : String :=
  if (unique_docs s).length < s.k_docs then "expand" else "enough"

/-- One execution of the compiled LangGraph state machine after the
`initial_retrieval` superstep, with `fuel` remaining supersteps out of the
default `recursion_limit` of 25.  Each `expand_k` and each
`expanded_retrieval` node costs one superstep, as does `aggregate_documents`;
exhausting the limit raises `GraphRecursionError`.  `tr` accumulates the
breadths passed to the similarity search. -/
def runLoop (search : Search) : Nat → RState → List Nat → List Nat × Except ExecErr RState
  | 0, _, tr => (tr, .error .recursionError)
  | 1, s, tr =>
    if should_expand s = "expand" then (tr, .error .recursionError)
    else (tr, aggregate_documents s)
  | n+2, s, tr =>
    if should_expand s = "expand" then
      let s1 := expand_k s
      let s2 := expanded_retrieval search s1
      runLoop search n s2 (tr ++ [s1.expanded_k])
    else (tr, aggregate_documents s)

/-- `retrieval_graph.invoke({"query": query, "k": k, "k_docs": k_docs})`:
runs `initial_retrieval` (superstep 1 of 25) and then the
expand/aggregate loop.  Returns the trace of similarity-search breadths
together with the final state or the raised exception. -/
def retrieval_graph_invoke (search : Search) (query : String) (k k_docs : Nat) :
    List Nat × Except ExecErr RState :=
  let s0 : RState := ⟨query, k, 0, k_docs, [], []⟩
  runLoop search 24 (initial_retrieval search s0) [k]

/-! ## Reciprocal Rank Fusion (`rrf_score` in `retrieval.py`) -/

/-- Score maps (`defaultdict(float)` / dicts of floats) as association lists;
`lookupD` is dict access with the defaultdict default `0.0`. -/
abbrev ScoreMap := List (String × ℚ)

/-- Dict lookup with default `0`. -/
def lookupD (m : ScoreMap) (key : String) : ℚ :=
  match m.find? (fun p => p.1 == key) with
  | some p => p.2
  | none => 0

/-- `scores[doc_id] += v` on a `defaultdict(float)`: update in place if the
key exists, otherwise insert `(doc_id, v)` at the end. -/
def bumpScore (m : ScoreMap) (key : String) (v : ℚ) : ScoreMap :=
  match m with
  | [] => [(key, v)]
  | p :: rest =>
    if p.1 == key then (p.1, p.2 + v) :: rest
    else p :: bumpScore rest key v

/-- Inner loop of `rrf_score` over one ranked list, starting at 1-based
`rank`.  Python computes `1 / (k + rank)` with machine ints/floats; when
`k + rank = 0` it raises `ZeroDivisionError`, modelled as `none`. -/
def rrfFold (k : ℤ) : ScoreMap → List String → Nat → Option ScoreMap
  | scores, [], _ => some scores
  | scores, doc :: rest, rank =>
    if k + (rank : ℤ) = 0 then none
    else rrfFold k (bumpScore scores doc (1 / ((k : ℚ) + (rank : ℚ)))) rest (rank + 1)

/-- Outer loop of `rrf_score` over the collection of ranked lists. -/
def rrfAll (k : ℤ) : ScoreMap → List (List String) → Option ScoreMap
  | scores, [] => some scores
  | scores, l :: ls =>
    match rrfFold k scores l 1 with
    | none => none
    | some sc => rrfAll k sc ls

/-- `rrf_score(ranked_lists, k)` from `retrieval.py`. -/
def rrf_score (ranked_lists : List (List String)) (k : ℤ) : Option ScoreMap :=
  rrfAll k [] ranked_lists

/-- The specification-side formula: an ID's fused score is the sum, over
exactly those input lists in which it appears, of `1 / (rrf_k + rank)` with
`rank` 1-based in that list (zero contribution from lists not containing it). -/
def specRrfScore (ranked_lists : List (List String)) (k : ℤ) (id : String) : ℚ :=
  (ranked_lists.map (fun l =>
    if id ∈ l then 1 / ((k : ℚ) + ((l.indexOf id : ℚ) + 1)) else 0)).sum

/-! ## Citation network (`citationNetwork.py`)

`self.graph` is a networkx `DiGraph`: nodes in insertion order without
duplicates, at most one edge per ordered pair.  `self.paper_years` is a dict
from paper id to year. -/

/-- The `CitationNetwork` object: the `DiGraph` (node list plus edge list)
and the `paper_years` dict. -/
structure CitationNetwork where
  nodes : List String
  edges : List (String × String)
  paper_years : List (String × Int)
deriving DecidableEq, Repr

/-- A fresh `CitationNetwork()`. -/
def emptyNetwork : CitationNetwork := ⟨[], [], []⟩

/-- `DiGraph.add_node`: a no-op when the node is already present. -/
def addNodeCN (nodes : List String) (v : String) : List String :=
  if v ∈ nodes then nodes else nodes ++ [v]

/-- Dict assignment `paper_years[paper_id] = year`. -/
def setYear (years : List (String × Int)) (id : String) (y : Int) : List (String × Int) :=
  match years with
  | [] => [(id, y)]
  | p :: rest => if p.1 == id then (p.1, y) :: rest else p :: setYear rest id y

/-- Dict read `paper_years.get(v)`. -/
def getYear (years : List (String × Int)) (id : String) : Option Int :=
  match years.find? (fun p => p.1 == id) with
  | some p => some p.2
  | none => none

/-- `add_paper(paper_id, year)`: adds the node; `if year:` stores the year
only when it is present and nonzero (Python truthiness). -/
def add_paper (cn : CitationNetwork) (paper_id : String) (year : Option Int) : CitationNetwork :=
  let cn1 := { cn with nodes := addNodeCN cn.nodes paper_id }
  match year with
  | none => cn1
  | some y => if y = 0 then cn1 else { cn1 with paper_years := setYear cn1.paper_years paper_id y }

/-- `add_citation(citing, cited)`: `DiGraph.add_edge` auto-adds both
endpoints as nodes and is a no-op on an already-present edge. -/
def add_citation (cn : CitationNetwork) (citing cited : String) : CitationNetwork :=
  let ns := addNodeCN (addNodeCN cn.nodes citing) cited
  if (citing, cited) ∈ cn.edges then { cn with nodes := ns }
  else { cn with nodes := ns, edges := cn.edges ++ [(citing, cited)] }

/-- `build_from_pdfs(pdf_files, paper_metadata)`: for each
`(paper_id, (year, references))` entry, `add_paper(paper_id, year)` and then,
for each reference, `add_paper(cited)` followed by
`add_citation(paper_id, cited)`.  (`pdf_files` is never read.) -/
def build_from_pdfs (cn : CitationNetwork)
    (paper_metadata : List (String × Option Int × List String)) : CitationNetwork :=
  paper_metadata.foldl
    (fun c meta =>
      (meta.2.2).foldl
        (fun c2 cited => add_citation (add_paper c2 cited none) meta.1 cited)
        (add_paper c meta.1 meta.2.1))
    cn

/-- `get_cited_by(paper)`: the list of predecessors of `paper`. -/
def get_cited_by (cn : CitationNetwork) (paper : String) : List String :=
  (cn.edges.filter (fun e => e.2 == paper)).map (fun e => e.1)

/-- `get_citation_count(paper)`: the in-degree of `paper`. -/
def get_citation_count (cn : CitationNetwork) (paper : String) : Nat :=
  cn.edges.countP (fun e => e.2 == paper)

/-- The mutating operations a caller can apply to a `CitationNetwork`. -/
inductive NetOp where
  | paper (id : String) (year : Option Int)
  | citation (citing cited : String)
  | fromPdfs (metadata : List (String × Option Int × List String))
deriving DecidableEq, Repr

/-- Apply one operation. -/
def applyOp (cn : CitationNetwork) : NetOp → CitationNetwork
  | .paper id year => add_paper cn id year
  | .citation citing cited => add_citation cn citing cited
  | .fromPdfs metadata => build_from_pdfs cn metadata

/-- The network reached from `CitationNetwork()` by a sequence of calls. -/
def applyOps (ops : List NetOp) : CitationNetwork :=
  ops.foldl applyOp emptyNetwork

/-! ## Weighted PageRank (`weighted_pagerank` plus networkx `pagerank`)

`weighted_pagerank` builds a fresh `DiGraph` containing one weighted edge per
edge of the citation graph (so its node set is exactly the edge endpoints;
isolated papers are absent), then runs `nx.pagerank` on it.  `nx.pagerank` is
embedded explicitly below: row-normalized transition weights, uniform start
and teleport vectors, dangling mass redistributed uniformly, at most 100
power iterations with L1 convergence threshold `n * 1e-6`, raising
`PowerIterationFailedConvergence` (modelled as `none`) on exhaustion. -/

/-- A weighted directed edge of the derived graph. -/
structure WEdge where
  src : String
  tgt : String
  w : ℚ
deriving DecidableEq, Repr

/-- The derived edge-weighted `DiGraph`. -/
structure WGraph where
  nodes : List String
  wedges : List WEdge
deriving DecidableEq, Repr

/-- The recency multiplier for a cited paper: `1` when the year is unknown
(or zero, by Python truthiness), otherwise `1 + recency_boost / (1 + age)`
with `age = max(current_year - year, 0)`. -/
def recencyMult (recency_boost : ℚ) (current_year : Int) (yr : Option Int) : ℚ :=
  match yr with
  | none => 1
  | some y => if y = 0 then 1 else 1 + recency_boost / (1 + ((max (current_year - y) 0 : Int) : ℚ))

/-- The weight `weighted_pagerank` derives for one citation edge: base `1.0`,
times `self_citation_penalty` on a self-loop, times the recency multiplier of
the cited paper. -/
def edgeWeight (cn : CitationNetwork) (recency_boost self_citation_penalty : ℚ)
    (current_year : Int) (e : String × String) : ℚ :=
  (if e.1 = e.2 then self_citation_penalty else 1) *
    recencyMult recency_boost current_year (getYear cn.paper_years e.2)

/-- `weighted_graph.add_edge(u, v, weight=w)`: adds `u` then `v` as nodes,
then the edge (the weight recomputed for a repeated pair is identical, so a
repeat is a no-op). -/
def addWEdge (g : WGraph) (e : WEdge) : WGraph :=
  let ns := addNodeCN (addNodeCN g.nodes e.src) e.tgt
  if g.wedges.any (fun e2 => e2.src == e.src && e2.tgt == e.tgt) then { g with nodes := ns }
  else { nodes := ns, wedges := g.wedges ++ [e] }

/-- The edge-weighted graph `weighted_pagerank` constructs. -/
def buildWeightedGraph (cn : CitationNetwork) (recency_boost self_citation_penalty : ℚ)
    (current_year : Int) : WGraph :=
  cn.edges.foldl
    (fun g e => addWEdge g ⟨e.1, e.2, edgeWeight cn recency_boost self_citation_penalty current_year e⟩)
    ⟨[], []⟩

/-- Out-weight sum of a node (the row sum `S[u]` of the adjacency matrix). -/
def outW (es : List WEdge) (u : String) : ℚ :=
  ((es.filter (fun e => e.src == u)).map (fun e => e.w)).sum

/-- One power-iteration step of networkx `pagerank`:
`x'[v] = alpha * sum(x[u] * w(u,v) / S[u], over in-edges with S[u] != 0)
       + alpha * (sum of x over dangling nodes) / n + (1 - alpha) / n`. -/
def pgStep (g : WGraph) (alpha : ℚ) (x : ScoreMap) : ScoreMap :=
  let n : ℚ := (g.nodes.length : ℚ)
  let dang : ℚ := ((g.nodes.filter (fun u => outW g.wedges u == 0)).map (fun u => lookupD x u)).sum
  g.nodes.map (fun v =>
    (v,
      alpha * (((g.wedges.filter (fun e => !(outW g.wedges e.src == 0))).filter
            (fun e => e.tgt == v)).map
          (fun e => lookupD x e.src * e.w / outW g.wedges e.src)).sum
        + alpha * dang / n + (1 - alpha) / n))

/-- L1 distance between two iterates, measured over the graph's nodes. -/
def l1Err (g : WGraph) (x y : ScoreMap) : ℚ :=
  (g.nodes.map (fun v => |lookupD y v - lookupD x v|)).sum

/-- Convergence tolerance `tol = 1e-6` of networkx `pagerank`. -/
def pgTol : ℚ := 1 / 1000000

/-- The power-iteration loop: up to `fuel` further iterations, returning the
first iterate whose L1 change is below `n * tol`, or `none`
(`PowerIterationFailedConvergence`) when the budget is exhausted. -/
def pgLoop (g : WGraph) (alpha : ℚ) : Nat → ScoreMap → Option ScoreMap
  | 0, _ => none
  | fuel+1, x =>
    let x2 := pgStep g alpha x
    if l1Err g x x2 < (g.nodes.length : ℚ) * pgTol then some x2
    else pgLoop g alpha fuel x2

/-- networkx `pagerank(G, alpha=alpha, weight="weight")`: empty graph gives
the empty dict; otherwise 100 power iterations starting from the uniform
vector. -/
def pagerank (g : WGraph) (alpha : ℚ) : Option ScoreMap :=
  if g.nodes.length = 0 then some []
  else pgLoop g alpha 100 (g.nodes.map (fun v => (v, 1 / (g.nodes.length : ℚ))))

/-- `CitationNetwork.weighted_pagerank(alpha, recency_boost,
self_citation_penalty, current_year)`. -/
def weighted_pagerank (cn : CitationNetwork) (alpha recency_boost self_citation_penalty : ℚ)
    (current_year : Int) : Option ScoreMap :=
  pagerank (buildWeightedGraph cn recency_boost self_citation_penalty current_year) alpha

/-- Sum of the values of a score map. -/
def sumValues (m : ScoreMap) : ℚ := (m.map (fun p => p.2)).sum

/-! ## Ranking pipeline (`retrieval_service`) and `/search` (`main.py`) -/

/-- `min(score for _, score in chunks)` for a document's chunk list; a
document entry always owns at least one chunk, but the empty case would raise
`ValueError` (modelled below by the guard in `retrieval_service`; here the
value is unused junk). -/
def minScoreD (chunks : List ScoredChunk) : ℚ :=
  match chunks.map (fun c => c.2) with
  | [] => 0
  | s :: rest => rest.foldl min s

/-- Python `sorted(items, key=keyOf, reverse=True)`: stable descending. -/
def sortDescBy (keyOf : String × List ScoredChunk → ℚ) (items : List (String × List ScoredChunk)) :
    List (String × List ScoredChunk) :=
  items.mergeSort (fun a b => keyOf b ≤ keyOf a)

/-- Python `sorted(items, key=keyOf)`: stable ascending. -/
def sortAscBy (keyOf : String × List ScoredChunk → ℚ) (items : List (String × List ScoredChunk)) :
    List (String × List ScoredChunk) :=
  items.mergeSort (fun a b => keyOf a ≤ keyOf b)

/-- `retrieval_service(query, k_docs, k_chunks, rrf_k)` from `retrieval.py`:
invoke the LangGraph workflow, rank the aggregated documents by chunk count
and by best (minimum) chunk distance, fuse the two id lists with RRF, and
return the fused ranking truncated to `k_docs`. -/
def retrieval_service (search : Search) (query : String) (k_docs k_chunks : Nat) (rrf_k : ℤ) :
    Except ExecErr (List (String × List ScoredChunk)) :=
  match (retrieval_graph_invoke search query k_chunks k_docs).2 with
  | .error e => .error e
  | .ok st =>
    let documents := st.documents
    if documents.any (fun d => d.2.isEmpty) then .error .valueError
    else
      let ranked_docs_by_count := sortDescBy (fun d => (d.2.length : ℚ)) documents
      let ranked_docs_by_best_score := sortAscBy (fun d => minScoreD d.2) documents
      let ranked_lists := [ranked_docs_by_count.map (fun d => d.1),
                           ranked_docs_by_best_score.map (fun d => d.1)]
      match rrf_score ranked_lists rrf_k with
      | none => .error .zeroDivisionError
      | some rrf_scores =>
        let final_ranking := sortDescBy (fun d => lookupD rrf_scores d.1) documents
        .ok (final_ranking.take k_docs)

/-- One element of the `/search` response:
`{document_id, chunks, citation_score}`. -/
structure SearchResult where
  document_id : String
  chunks : List ScoredChunk
  citation_score : ℚ
deriving DecidableEq, Repr

/-- The `GET /search` handler of `main.py`: it calls
`retrieval_service(query, k_chunks=5, k_docs=3)` (propagating any exception)
and then evaluates `results.keys()` — but `retrieval_service` returns a
*list*, which has no `keys` method, so that line raises `AttributeError`
whenever it is reached. -/
def search_endpoint (search : Search) (query : String) : Except ExecErr (List SearchResult) :=
  match retrieval_service search query 3 5 60 with
  | .error e => .error e
  | .ok _ => .error .attributeError

/-- Well-formedness of a derived weighted graph, as networkx guarantees it:
node list without duplicates, every edge endpoint a node. -/
def WGraphWF (g : WGraph) : Prop :=
  g.nodes.Nodup ∧ ∀ e ∈ g.wedges, e.src ∈ g.nodes ∧ e.tgt ∈ g.nodes

/-- A similarity-search collaborator over a corpus with a single document:
every query returns the same single chunk of document `d1`. -/
def oneDocSearch : Search := fun _ _ => [(⟨"t", some "d1"⟩, 0)]

/-- A similarity-search collaborator returning chunks of two distinct
documents for every query. -/
def twoDocSearch : Search := fun _ _ => [(⟨"t1", some "d1"⟩, 0), (⟨"t2", some "d2"⟩, 1)]

/-! ## Generic list-sum lemmas -/

theorem sum_map_add {α : Type} (l : List α) (f g : α → ℚ) :
    (l.map (fun a => f a + g a)).sum = (l.map f).sum + (l.map g).sum := by
  induction l with
  | nil => simp
  | cons a t ih => simp only [List.map_cons, List.sum_cons, ih]; ring

theorem sum_map_mul_const {α : Type} (l : List α) (c : ℚ) (f : α → ℚ) :
    (l.map (fun a => c * f a)).sum = c * (l.map f).sum := by
  induction l with
  | nil => simp
  | cons a t ih => simp only [List.map_cons, List.sum_cons, ih]; ring

theorem sum_map_const_q {α : Type} (l : List α) (c : ℚ) :
    (l.map (fun _ => c)).sum = (l.length : ℚ) * c := by
  induction l with
  | nil => simp
  | cons a t ih => simp only [List.map_cons, List.sum_cons, ih, List.length_cons]; push_cast; ring

theorem sum_filter_eq_sum_ite {α : Type} (l : List α) (p : α → Bool) (f : α → ℚ) :
    ((l.filter p).map f).sum = (l.map (fun a => if p a then f a else 0)).sum := by
  induction l with
  | nil => rfl
  | cons a t ih =>
    by_cases h : p a <;> simp [List.filter_cons, h, ih]

theorem sum_map_swap {α β : Type} (l1 : List α) (l2 : List β) (f : α → β → ℚ) :
    (l1.map (fun a => (l2.map (fun b => f a b)).sum)).sum
      = (l2.map (fun b => (l1.map (fun a => f a b)).sum)).sum := by
  induction l1 with
  | nil => simp
  | cons a t ih =>
    simp only [List.map_cons, List.sum_cons, ih, sum_map_add]

theorem sum_map_ite_zero {α : Type} [BEq α] [LawfulBEq α] (l : List α) (a : α) (f : α → ℚ)
    (ha : a ∉ l) : (l.map (fun b => if a == b then f b else 0)).sum = 0 := by
  induction l with
  | nil => rfl
  | cons b t ih =>
    have hab : ¬ (a == b) = true := by
      simp only [beq_iff_eq]
      rintro rfl
      exact ha (List.mem_cons_self a t)
    have hat : a ∉ t := fun h => ha (List.mem_cons_of_mem b h)
    simp [hab, ih hat]

theorem sum_map_ite_eq {α : Type} [BEq α] [LawfulBEq α] (l : List α) (a : α) (f : α → ℚ)
    (hnd : l.Nodup) (ha : a ∈ l) :
    (l.map (fun b => if a == b then f b else 0)).sum = f a := by
  induction l with
  | nil => cases ha
  | cons b t ih =>
    rcases List.mem_cons.mp ha with h | h
    · subst h
      have hat : a ∉ t := (List.nodup_cons.mp hnd).1
      simp [sum_map_ite_zero t a f hat]
    · have hab : ¬ (a == b) = true := by
        simp only [beq_iff_eq]
        rintro rfl
        exact (List.nodup_cons.mp hnd).1 h
      rw [List.map_cons, List.sum_cons, if_neg hab, ih (List.nodup_cons.mp hnd).2 h, zero_add]

theorem sum_group {α β : Type} [BEq α] [LawfulBEq α] (keys : List α) (items : List β)
    (key : β → α) (f : β → ℚ) (hnd : keys.Nodup) (hmem : ∀ b ∈ items, key b ∈ keys) :
    (keys.map (fun a => ((items.filter (fun b => key b == a)).map f).sum)).sum
      = (items.map f).sum := by
  have h1 : ∀ a, ((items.filter (fun b => key b == a)).map f).sum
      = (items.map (fun b => if key b == a then f b else 0)).sum := fun a =>
    sum_filter_eq_sum_ite items (fun b => key b == a) f
  calc (keys.map (fun a => ((items.filter (fun b => key b == a)).map f).sum)).sum
      = (keys.map (fun a => (items.map (fun b => if key b == a then f b else 0)).sum)).sum := by
        simp only [h1]
    _ = (items.map (fun b => (keys.map (fun a => if key b == a then f b else 0)).sum)).sum :=
        sum_map_swap keys items (fun a b => if key b == a then f b else 0)
    _ = (items.map f).sum := by
        congr 1
        apply List.map_congr_left
        intro b hb
        exact sum_map_ite_eq keys (key b) (fun _ => f b) hnd (hmem b hb)

theorem sum_map_nonneg_q {α : Type} (l : List α) (f : α → ℚ) (h : ∀ a ∈ l, 0 ≤ f a) :
    0 ≤ (l.map f).sum := by
  induction l with
  | nil => simp
  | cons a t ih =>
    simp only [List.map_cons, List.sum_cons]
    have := h a (List.mem_cons_self a t)
    have := ih (fun b hb => h b (List.mem_cons_of_mem a hb))
    linarith

theorem sum_map_split {α : Type} (l : List α) (p : α → Bool) (f : α → ℚ) :
    (l.map f).sum = ((l.filter p).map f).sum + ((l.filter (fun a => !(p a))).map f).sum := by
  induction l with
  | nil => simp
  | cons a t ih =>
    by_cases h : p a <;> simp [List.filter_cons, h, ih] <;> ring

/-! ## Score-map lookup lemmas -/

theorem lookupD_nonneg (m : ScoreMap) (key : String) (h : ∀ p ∈ m, 0 ≤ p.2) :
    0 ≤ lookupD m key := by
  induction m with
  | nil => simp [lookupD]
  | cons p rest ih =>
    by_cases hp : p.1 == key
    · simpa [lookupD, List.find?, hp] using h p (List.mem_cons_self p rest)
    · simp only [lookupD, List.find?, hp]
      exact ih (fun q hq => h q (List.mem_cons_of_mem p hq))

theorem lookupD_mem (m : ScoreMap) (key : String) (h : key ∈ m.map Prod.fst) :
    ∃ p ∈ m, p.1 = key ∧ lookupD m key = p.2 := by
  induction m with
  | nil => cases h
  | cons p rest ih =>
    by_cases hp : p.1 == key
    · exact ⟨p, List.mem_cons_self p rest, by simpa using hp, by simp [lookupD, List.find?, hp]⟩
    · have hk : key ∈ rest.map Prod.fst := by
        rcases List.mem_map.mp h with ⟨q, hq, hqk⟩
        rcases List.mem_cons.mp hq with rfl | hq2
        · exact absurd (by simp [hqk]) hp
        · exact List.mem_map.mpr ⟨q, hq2, hqk⟩
      rcases ih hk with ⟨q, hq, hqk, hlk⟩
      exact ⟨q, List.mem_cons_of_mem p hq, hqk, by simpa [lookupD, List.find?, hp] using hlk⟩

theorem lookupD_mapped (nodes : List String) (g : String → ℚ) (v : String)
    (hnd : nodes.Nodup) (hv : v ∈ nodes) :
    lookupD (nodes.map (fun u => (u, g u))) v = g v := by
  induction nodes with
  | nil => cases hv
  | cons u rest ih =>
    rcases List.mem_cons.mp hv with rfl | hv2
    · simp [lookupD, List.find?]
    · have huv : ¬ (u == v) = true := by
        simp only [beq_iff_eq]
        rintro rfl
        exact (List.nodup_cons.mp hnd).1 hv2
      simp only [List.map_cons, lookupD, List.find?, huv]
      exact ih (List.nodup_cons.mp hnd).2 hv2

theorem sum_lookup_eq_sumValues (m : ScoreMap) (nodes : List String)
    (hk : m.map Prod.fst = nodes) (hnd : nodes.Nodup) :
    (nodes.map (fun v => lookupD m v)).sum = sumValues m := by
  induction m generalizing nodes with
  | nil => simp_all [sumValues]
  | cons p rest ih =>
    subst hk
    simp only [List.map_cons] at hnd ⊢
    have hnotin : p.1 ∉ rest.map Prod.fst := (List.nodup_cons.mp hnd).1
    have hhead : lookupD (p :: rest) p.1 = p.2 := by
      simp [lookupD, List.find?]
    have htail : ∀ v ∈ rest.map Prod.fst, lookupD (p :: rest) v = lookupD rest v := by
      intro v hv
      have hpv : ¬ (p.1 == v) = true := by
        simp only [beq_iff_eq]
        rintro rfl
        exact hnotin hv
      simp [lookupD, List.find?, hpv]
    calc (lookupD (p :: rest) p.1 :: (rest.map Prod.fst).map (fun v => lookupD (p :: rest) v)).sum
        = p.2 + ((rest.map Prod.fst).map (fun v => lookupD rest v)).sum := by
          rw [List.sum_cons, hhead, List.map_congr_left htail]
      _ = p.2 + sumValues rest := by rw [ih (rest.map Prod.fst) rfl (List.nodup_cons.mp hnd).2]
      _ = sumValues (p :: rest) := by simp [sumValues]

/-! ## Invariants of the derived weighted graph -/

theorem addNodeCN_nodup (nodes : List String) (v : String) (h : nodes.Nodup) :
    (addNodeCN nodes v).Nodup := by
  unfold addNodeCN
  by_cases hv : v ∈ nodes <;> simp [hv, h, List.nodup_append]

theorem mem_addNodeCN (nodes : List String) (v u : String) :
    u ∈ addNodeCN nodes v ↔ u ∈ nodes ∨ u = v := by
  unfold addNodeCN
  by_cases hv : v ∈ nodes
  · simp only [hv, if_true]
    constructor
    · exact Or.inl
    · rintro (h | rfl)
      · exact h
      · exact hv
  · simp [hv]

theorem mem_addWEdge_nodes (g : WGraph) (e : WEdge) (u : String) :
    u ∈ (addWEdge g e).nodes ↔ u ∈ g.nodes ∨ u = e.src ∨ u = e.tgt := by
  have hn : (addWEdge g e).nodes = addNodeCN (addNodeCN g.nodes e.src) e.tgt := by
    unfold addWEdge
    by_cases hd : g.wedges.any (fun e2 => e2.src == e.src && e2.tgt == e.tgt) <;> simp [hd]
  rw [hn, mem_addNodeCN, mem_addNodeCN, or_assoc]

theorem addWEdge_nodes_nodup (g : WGraph) (e : WEdge) (h : g.nodes.Nodup) :
    (addWEdge g e).nodes.Nodup := by
  have hn : (addWEdge g e).nodes = addNodeCN (addNodeCN g.nodes e.src) e.tgt := by
    unfold addWEdge
    by_cases hd : g.wedges.any (fun e2 => e2.src == e.src && e2.tgt == e.tgt) <;> simp [hd]
  rw [hn]
  exact addNodeCN_nodup _ _ (addNodeCN_nodup _ _ h)

theorem addWEdge_wedges (g : WGraph) (e : WEdge) :
    ∀ e2 ∈ (addWEdge g e).wedges, e2 ∈ g.wedges ∨ e2 = e := by
  intro e2 h2
  unfold addWEdge at h2
  by_cases hd : g.wedges.any (fun e3 => e3.src == e.src && e3.tgt == e.tgt)
  · simp only [hd, if_true] at h2
    exact Or.inl h2
  · simp only [hd, if_false] at h2
    rcases List.mem_append.mp h2 with h | h
    · exact Or.inl h
    · exact Or.inr (List.mem_singleton.mp h)

theorem addWEdge_wf (g : WGraph) (e : WEdge) (h : WGraphWF g) : WGraphWF (addWEdge g e) := by
  refine ⟨addWEdge_nodes_nodup g e h.1, ?_⟩
  intro e2 h2
  rcases addWEdge_wedges g e e2 h2 with hold | rfl
  · rcases h.2 e2 hold with ⟨h1, h3⟩
    exact ⟨(mem_addWEdge_nodes g e e2.src).mpr (Or.inl h1),
      (mem_addWEdge_nodes g e e2.tgt).mpr (Or.inl h3)⟩
  · exact ⟨(mem_addWEdge_nodes g e2 e2.src).mpr (Or.inr (Or.inl rfl)),
      (mem_addWEdge_nodes g e2 e2.tgt).mpr (Or.inr (Or.inr rfl))⟩

theorem build_fold_wf (cn : CitationNetwork) (rb pen : ℚ) (cy : Int) :
    ∀ (es : List (String × String)) (g : WGraph), WGraphWF g →
      WGraphWF (es.foldl (fun g2 e => addWEdge g2 ⟨e.1, e.2, edgeWeight cn rb pen cy e⟩) g) := by
  intro es
  induction es with
  | nil => intro g hg; exact hg
  | cons e t ih =>
    intro g hg
    exact ih _ (addWEdge_wf g _ hg)

theorem build_wf (cn : CitationNetwork) (rb pen : ℚ) (cy : Int) :
    WGraphWF (buildWeightedGraph cn rb pen cy) :=
  build_fold_wf cn rb pen cy cn.edges ⟨[], []⟩ ⟨List.nodup_nil, by intro e h; cases h⟩

theorem recencyMult_nonneg (rb : ℚ) (cy : Int) (yr : Option Int) (hrb : 0 ≤ rb) :
    0 ≤ recencyMult rb cy yr := by
  unfold recencyMult
  match yr with
  | none => norm_num
  | some y =>
    by_cases hy : y = 0
    · simp [hy]
    · simp only [hy, if_false]
      have hage : (0 : ℚ) ≤ ((max (cy - y) 0 : Int) : ℚ) := by
        have : (0 : Int) ≤ max (cy - y) 0 := le_max_right _ _
        exact_mod_cast this
      have : 0 ≤ rb / (1 + ((max (cy - y) 0 : Int) : ℚ)) := by positivity
      linarith

theorem edgeWeight_nonneg (cn : CitationNetwork) (rb pen : ℚ) (cy : Int) (e : String × String)
    (hrb : 0 ≤ rb) (hpen : 0 ≤ pen) : 0 ≤ edgeWeight cn rb pen cy e := by
  unfold edgeWeight
  have hm := recencyMult_nonneg rb cy (getYear cn.paper_years e.2) hrb
  by_cases hself : e.1 = e.2 <;> simp only [hself, if_true, if_false] <;> positivity

theorem build_fold_weights (cn : CitationNetwork) (rb pen : ℚ) (cy : Int)
    (hrb : 0 ≤ rb) (hpen : 0 ≤ pen) :
    ∀ (es : List (String × String)) (g : WGraph), (∀ e ∈ g.wedges, 0 ≤ e.w) →
      ∀ e ∈ (es.foldl (fun g2 e => addWEdge g2 ⟨e.1, e.2, edgeWeight cn rb pen cy e⟩) g).wedges,
        0 ≤ e.w := by
  intro es
  induction es with
  | nil => intro g hg; exact hg
  | cons e t ih =>
    intro g hg
    apply ih
    intro e2 h2
    rcases addWEdge_wedges g _ e2 h2 with hold | rfl
    · exact hg e2 hold
    · exact edgeWeight_nonneg cn rb pen cy e hrb hpen

theorem build_weights_nonneg (cn : CitationNetwork) (rb pen : ℚ) (cy : Int)
    (hrb : 0 ≤ rb) (hpen : 0 ≤ pen) :
    ∀ e ∈ (buildWeightedGraph cn rb pen cy).wedges, 0 ≤ e.w :=
  build_fold_weights cn rb pen cy hrb hpen cn.edges ⟨[], []⟩ (by intro e h; cases h)

theorem mem_build_fold_nodes (cn : CitationNetwork) (rb pen : ℚ) (cy : Int) (v : String) :
    ∀ (es : List (String × String)) (g : WGraph),
      v ∈ (es.foldl (fun g2 e => addWEdge g2 ⟨e.1, e.2, edgeWeight cn rb pen cy e⟩) g).nodes
        ↔ v ∈ g.nodes ∨ ∃ e ∈ es, e.1 = v ∨ e.2 = v := by
  intro es
  induction es with
  | nil => intro g; simp
  | cons e t ih =>
    intro g
    rw [List.foldl_cons, ih]
    rw [mem_addWEdge_nodes]
    constructor
    · rintro ((h | h | h) | ⟨e2, h2, h3⟩)
      · exact Or.inl h
      · exact Or.inr ⟨e, List.mem_cons_self e t, Or.inl h.symm⟩
      · exact Or.inr ⟨e, List.mem_cons_self e t, Or.inr h.symm⟩
      · exact Or.inr ⟨e2, List.mem_cons_of_mem e h2, h3⟩
    · rintro (h | ⟨e2, h2, h3⟩)
      · exact Or.inl (Or.inl h)
      · rcases List.mem_cons.mp h2 with rfl | h4
        · rcases h3 with h3 | h3
          · exact Or.inl (Or.inr (Or.inl h3.symm))
          · exact Or.inl (Or.inr (Or.inr h3.symm))
        · exact Or.inr ⟨e2, h4, h3⟩

theorem mem_build_nodes (cn : CitationNetwork) (rb pen : ℚ) (cy : Int) (v : String) :
    v ∈ (buildWeightedGraph cn rb pen cy).nodes ↔ ∃ e ∈ cn.edges, e.1 = v ∨ e.2 = v := by
  rw [buildWeightedGraph, mem_build_fold_nodes]
  simp

/-! ## PageRank iteration invariants -/

theorem sumValues_node_map (nodes : List String) (f : String → ℚ) :
    sumValues (nodes.map (fun v => (v, f v))) = (nodes.map f).sum := by
  simp [sumValues, List.map_map, Function.comp_def]

theorem pgStep_keys (g : WGraph) (alpha : ℚ) (x : ScoreMap) :
    (pgStep g alpha x).map Prod.fst = g.nodes := by
  simp [pgStep, List.map_map, Function.comp_def]

theorem outW_nonneg (es : List WEdge) (u : String) (h : ∀ e ∈ es, 0 ≤ e.w) :
    0 ≤ outW es u := by
  apply sum_map_nonneg_q
  intro e he
  exact h e (List.mem_filter.mp he).1

theorem pgStep_sum (g : WGraph) (alpha : ℚ) (x : ScoreMap)
    (hwf : WGraphWF g) (hne : g.nodes ≠ [])
    (hx : (g.nodes.map (fun v => lookupD x v)).sum = 1) :
    sumValues (pgStep g alpha x) = 1 := by
  obtain ⟨hnd, hends⟩ := hwf
  have hnpos : (0 : ℚ) < (g.nodes.length : ℚ) := by
    have : 0 < g.nodes.length := List.length_pos.mpr hne
    exact_mod_cast this
  have hnne : (g.nodes.length : ℚ) ≠ 0 := ne_of_gt hnpos
  have hsv : sumValues (pgStep g alpha x) = (g.nodes.map (fun v =>
      alpha * (((g.wedges.filter (fun e => !(outW g.wedges e.src == 0))).filter
            (fun e => e.tgt == v)).map
          (fun e => lookupD x e.src * e.w / outW g.wedges e.src)).sum
        + alpha * ((g.nodes.filter (fun u => outW g.wedges u == 0)).map
            (fun u => lookupD x u)).sum / (g.nodes.length : ℚ)
        + (1 - alpha) / (g.nodes.length : ℚ))).sum := by
    simp only [pgStep, sumValues_node_map]
  rw [hsv]
  rw [sum_map_add (g.nodes)
    (fun v => alpha * (((g.wedges.filter (fun e => !(outW g.wedges e.src == 0))).filter
          (fun e => e.tgt == v)).map
        (fun e => lookupD x e.src * e.w / outW g.wedges e.src)).sum
      + alpha * ((g.nodes.filter (fun u => outW g.wedges u == 0)).map
          (fun u => lookupD x u)).sum / (g.nodes.length : ℚ))
    (fun _ => (1 - alpha) / (g.nodes.length : ℚ))]
  rw [sum_map_add (g.nodes)
    (fun v => alpha * (((g.wedges.filter (fun e => !(outW g.wedges e.src == 0))).filter
          (fun e => e.tgt == v)).map
        (fun e => lookupD x e.src * e.w / outW g.wedges e.src)).sum)
    (fun _ => alpha * ((g.nodes.filter (fun u => outW g.wedges u == 0)).map
        (fun u => lookupD x u)).sum / (g.nodes.length : ℚ))]
  rw [sum_map_const_q, sum_map_const_q]
  rw [sum_map_mul_const g.nodes alpha
    (fun v => (((g.wedges.filter (fun e => !(outW g.wedges e.src == 0))).filter
          (fun e => e.tgt == v)).map
        (fun e => lookupD x e.src * e.w / outW g.wedges e.src)).sum)]
  have hmem_tgt : ∀ e ∈ g.wedges.filter (fun e => !(outW g.wedges e.src == 0)),
      e.tgt ∈ g.nodes := fun e he => (hends e (List.mem_filter.mp he).1).2
  have hmem_src : ∀ e ∈ g.wedges.filter (fun e => !(outW g.wedges e.src == 0)),
      e.src ∈ g.nodes := fun e he => (hends e (List.mem_filter.mp he).1).1
  rw [sum_group g.nodes (g.wedges.filter (fun e => !(outW g.wedges e.src == 0)))
    (fun e => e.tgt) (fun e => lookupD x e.src * e.w / outW g.wedges e.src) hnd hmem_tgt]
  rw [← sum_group g.nodes (g.wedges.filter (fun e => !(outW g.wedges e.src == 0)))
    (fun e => e.src) (fun e => lookupD x e.src * e.w / outW g.wedges e.src) hnd hmem_src]
  have hper : ∀ u ∈ g.nodes,
      (((g.wedges.filter (fun e => !(outW g.wedges e.src == 0))).filter
          (fun e => e.src == u)).map
        (fun e => lookupD x e.src * e.w / outW g.wedges e.src)).sum
      = if !(outW g.wedges u == 0) then lookupD x u else 0 := by
    intro u _
    have hrw : (((g.wedges.filter (fun e => !(outW g.wedges e.src == 0))).filter
          (fun e => e.src == u)).map
        (fun e => lookupD x e.src * e.w / outW g.wedges e.src))
        = (((g.wedges.filter (fun e => !(outW g.wedges e.src == 0))).filter
          (fun e => e.src == u)).map
        (fun e => lookupD x u / outW g.wedges u * e.w)) := by
      apply List.map_congr_left
      intro e he
      have hsrc : e.src = u := by simpa using (List.mem_filter.mp he).2
      rw [hsrc]
      ring
    rw [hrw, sum_map_mul_const]
    by_cases hz : outW g.wedges u = 0
    · have hzb : (outW g.wedges u == 0) = true := by simpa using hz
      have hempty : (g.wedges.filter (fun e => !(outW g.wedges e.src == 0))).filter
          (fun e => e.src == u) = [] := by
        rw [List.filter_eq_nil_iff]
        intro e he
        have hq : (!(outW g.wedges e.src == 0)) = true := (List.mem_filter.mp he).2
        intro hsrc
        have hsrc2 : e.src = u := by simpa using hsrc
        rw [hsrc2] at hq
        simp [hzb] at hq
      rw [hempty]
      simp [hzb]
    · have hzb : (!(outW g.wedges u == 0)) = true := by simpa using hz
      have hfilter : (g.wedges.filter (fun e => !(outW g.wedges e.src == 0))).filter
          (fun e => e.src == u) = g.wedges.filter (fun e => e.src == u) := by
        rw [List.filter_filter]
        apply List.filter_congr
        intro e _
        by_cases hsrc : e.src = u
        · rw [hsrc]
          simp [hzb]
        · have : (e.src == u) = false := by simpa using hsrc
          simp [this]
      rw [hfilter]
      have houtw : ((g.wedges.filter (fun e => e.src == u)).map (fun e => e.w)).sum
          = outW g.wedges u := rfl
      rw [houtw]
      rw [div_mul_cancel₀ _ hz]
      simp [hzb]
  rw [List.map_congr_left hper]
  rw [← sum_filter_eq_sum_ite g.nodes (fun u => !(outW g.wedges u == 0))
    (fun u => lookupD x u)]
  have hsplit := sum_map_split g.nodes (fun u => outW g.wedges u == 0)
    (fun v => lookupD x v)
  rw [hx] at hsplit
  have h2 : (g.nodes.length : ℚ) * (alpha * ((g.nodes.filter
        (fun u => outW g.wedges u == 0)).map (fun u => lookupD x u)).sum
        / (g.nodes.length : ℚ))
      = alpha * ((g.nodes.filter (fun u => outW g.wedges u == 0)).map
        (fun u => lookupD x u)).sum := by
    field_simp
  have h3 : (g.nodes.length : ℚ) * ((1 - alpha) / (g.nodes.length : ℚ)) = 1 - alpha := by
    field_simp
  rw [h2, h3]
  linear_combination (-alpha) * hsplit

theorem pgStep_pos (g : WGraph) (alpha : ℚ) (x : ScoreMap)
    (hne : g.nodes ≠ []) (hw : ∀ e ∈ g.wedges, 0 ≤ e.w)
    (ha0 : 0 ≤ alpha) (ha1 : alpha < 1) (hx : ∀ p ∈ x, 0 ≤ p.2) :
    ∀ p ∈ pgStep g alpha x, 0 < p.2 := by
  intro p hp
  have hnpos : (0 : ℚ) < (g.nodes.length : ℚ) := by
    have : 0 < g.nodes.length := List.length_pos.mpr hne
    exact_mod_cast this
  unfold pgStep at hp
  rcases List.mem_map.mp hp with ⟨v, _, rfl⟩
  have hT : 0 ≤ (((g.wedges.filter (fun e => !(outW g.wedges e.src == 0))).filter
        (fun e => e.tgt == v)).map
      (fun e => lookupD x e.src * e.w / outW g.wedges e.src)).sum := by
    apply sum_map_nonneg_q
    intro e he
    have hew : e ∈ g.wedges :=
      (List.mem_filter.mp (List.mem_filter.mp he).1).1
    exact div_nonneg (mul_nonneg (lookupD_nonneg x e.src hx) (hw e hew))
      (outW_nonneg g.wedges e.src hw)
  have hdang : 0 ≤ ((g.nodes.filter (fun u => outW g.wedges u == 0)).map
      (fun u => lookupD x u)).sum := by
    apply sum_map_nonneg_q
    intro u _
    exact lookupD_nonneg x u hx
  have h1 : 0 ≤ alpha * (((g.wedges.filter (fun e => !(outW g.wedges e.src == 0))).filter
        (fun e => e.tgt == v)).map
      (fun e => lookupD x e.src * e.w / outW g.wedges e.src)).sum := mul_nonneg ha0 hT
  have h2 : 0 ≤ alpha * ((g.nodes.filter (fun u => outW g.wedges u == 0)).map
      (fun u => lookupD x u)).sum / (g.nodes.length : ℚ) :=
    div_nonneg (mul_nonneg ha0 hdang) (le_of_lt hnpos)
  have h3 : 0 < (1 - alpha) / (g.nodes.length : ℚ) :=
    div_pos (by linarith) hnpos
  show 0 < _ + _ + _
  linarith

theorem pgLoop_sum (g : WGraph) (alpha : ℚ) (hwf : WGraphWF g) (hne : g.nodes ≠ []) :
    ∀ (fuel : Nat) (x m : ScoreMap), x.map Prod.fst = g.nodes → sumValues x = 1 →
      pgLoop g alpha fuel x = some m → sumValues m = 1 := by
  intro fuel
  induction fuel with
  | zero =>
    intro x m _ _ h
    cases h
  | succ n ih =>
    intro x m hk hs h
    have hx1 : (g.nodes.map (fun v => lookupD x v)).sum = 1 := by
      rw [sum_lookup_eq_sumValues x g.nodes hk hwf.1, hs]
    have hstep := pgStep_sum g alpha x hwf hne hx1
    rw [pgLoop] at h
    split at h
    · exact Option.some.inj h ▸ hstep
    · exact ih (pgStep g alpha x) m (pgStep_keys g alpha x) hstep h

theorem pgLoop_pos (g : WGraph) (alpha : ℚ) (hne : g.nodes ≠ [])
    (hw : ∀ e ∈ g.wedges, 0 ≤ e.w) (ha0 : 0 ≤ alpha) (ha1 : alpha < 1) :
    ∀ (fuel : Nat) (x m : ScoreMap), (∀ p ∈ x, 0 ≤ p.2) →
      pgLoop g alpha fuel x = some m →
      m.map Prod.fst = g.nodes ∧ ∀ p ∈ m, 0 < p.2 := by
  intro fuel
  induction fuel with
  | zero =>
    intro x m _ h
    cases h
  | succ n ih =>
    intro x m hx h
    have hpos := pgStep_pos g alpha x hne hw ha0 ha1 hx
    rw [pgLoop] at h
    split at h
    · refine Option.some.inj h ▸ ⟨pgStep_keys g alpha x, hpos⟩
    · exact ih (pgStep g alpha x) m (fun p hp => le_of_lt (hpos p hp)) h

theorem pagerank_sum (g : WGraph) (alpha : ℚ) (m : ScoreMap)
    (hwf : WGraphWF g) (hne : g.nodes ≠ []) (h : pagerank g alpha = some m) :
    sumValues m = 1 := by
  have hlen : ¬ g.nodes.length = 0 := by
    simpa [List.length_eq_zero] using hne
  rw [pagerank, if_neg hlen] at h
  have hnne : (g.nodes.length : ℚ) ≠ 0 := by exact_mod_cast hlen
  refine pgLoop_sum g alpha hwf hne 100 _ m ?_ ?_ h
  · simp [List.map_map, Function.comp_def]
  · rw [sumValues_node_map, sum_map_const_q]
    field_simp

theorem pagerank_pos (g : WGraph) (alpha : ℚ) (m : ScoreMap)
    (hne : g.nodes ≠ []) (hw : ∀ e ∈ g.wedges, 0 ≤ e.w)
    (ha0 : 0 ≤ alpha) (ha1 : alpha < 1) (h : pagerank g alpha = some m) :
    m.map Prod.fst = g.nodes ∧ ∀ p ∈ m, 0 < p.2 := by
  have hlen : ¬ g.nodes.length = 0 := by
    simpa [List.length_eq_zero] using hne
  rw [pagerank, if_neg hlen] at h
  have hnneg : (0:ℚ) ≤ (g.nodes.length : ℚ) := by positivity
  refine pgLoop_pos g alpha hne hw ha0 ha1 100 _ m ?_ h
  intro p hp
  rcases List.mem_map.mp hp with ⟨v, _, rfl⟩
  positivity

theorem build_edges_nil (cn : CitationNetwork) (rb pen : ℚ) (cy : Int) (h : cn.edges = []) :
    buildWeightedGraph cn rb pen cy = ⟨[], []⟩ := by
  simp [buildWeightedGraph, h]

theorem build_nodes_ne_nil (cn : CitationNetwork) (rb pen : ℚ) (cy : Int)
    (h : cn.edges ≠ []) : (buildWeightedGraph cn rb pen cy).nodes ≠ [] := by
  match hcn : cn.edges with
  | [] => exact absurd hcn h
  | e :: t =>
    have hm : e.1 ∈ (buildWeightedGraph cn rb pen cy).nodes :=
      (mem_build_nodes cn rb pen cy e.1).mpr
        ⟨e, by rw [hcn]; exact List.mem_cons_self e t, Or.inl rfl⟩
    exact List.ne_nil_of_mem hm

/-! ## Retrieval-loop lemmas -/

theorem dedup_length_le {α : Type} [DecidableEq α] (l corpus : List α)
    (h : ∀ a ∈ l, a ∈ corpus) : l.dedup.length ≤ corpus.dedup.length := by
  rw [← List.card_toFinset, ← List.card_toFinset]
  apply Finset.card_le_card
  intro a ha
  rw [List.mem_toFinset] at ha ⊢
  exact h a ha

theorem should_expand_of_lt (s : RState) (h : (unique_docs s).length < s.k_docs) :
    should_expand s = "expand" := by
  simp [should_expand, h]

theorem runLoop_stuck (search : Search) (q : String) (kd : Nat)
    (corpus : List (Option String))
    (hcorp : ∀ kk : Nat, ∀ c ∈ search q kk, c.1.doc_id ∈ corpus)
    (hsmall : corpus.dedup.length < kd) :
    ∀ (fuel : Nat) (s : RState) (tr : List Nat),
      s.query = q → s.k_docs = kd → (∀ c ∈ s.retrieved_chunks, c.1.doc_id ∈ corpus) →
      (runLoop search fuel s tr).2 = .error .recursionError ∧
        (runLoop search fuel s tr).1.length ≤ tr.length + fuel / 2 := by
  intro fuel
  induction fuel using Nat.strong_induction_on with
  | _ fuel ih =>
    intro s tr hq hkd hchunks
    have hexp : should_expand s = "expand" := by
      apply should_expand_of_lt
      rw [hkd]
      refine lt_of_le_of_lt (dedup_length_le _ corpus ?_) hsmall
      intro a ha
      rcases List.mem_map.mp ha with ⟨c, hc, rfl⟩
      exact hchunks c hc
    match fuel with
    | 0 => exact ⟨rfl, by simp [runLoop]⟩
    | 1 =>
      refine ⟨by simp [runLoop, hexp], by simp [runLoop, hexp]⟩
    | n+2 =>
      have hrl : runLoop search (n+2) s tr
          = runLoop search n (expanded_retrieval search (expand_k s)) (tr ++ [(expand_k s).expanded_k]) := by
        simp [runLoop, hexp]
      rw [hrl]
      have hinv : ∀ c ∈ (expanded_retrieval search (expand_k s)).retrieved_chunks,
          c.1.doc_id ∈ corpus := by
        intro c hc
        rcases List.mem_append.mp hc with hc2 | hc2
        · exact hchunks c hc2
        · exact hcorp _ c (by simpa [expand_k, hq] using hc2)
      have hih := ih n (by omega) (expanded_retrieval search (expand_k s))
        (tr ++ [(expand_k s).expanded_k]) (by simp [expanded_retrieval, expand_k, hq])
        (by simp [expanded_retrieval, expand_k, hkd]) hinv
      refine ⟨hih.1, ?_⟩
      have := hih.2
      simp only [List.length_append, List.length_singleton] at this
      omega

theorem runLoop_trace_le (search : Search) :
    ∀ (fuel : Nat) (s : RState) (tr : List Nat),
      (runLoop search fuel s tr).1.length ≤ tr.length + fuel / 2 := by
  intro fuel
  induction fuel using Nat.strong_induction_on with
  | _ fuel ih =>
    intro s tr
    match fuel with
    | 0 => simp [runLoop]
    | 1 =>
      by_cases hexp : should_expand s = "expand" <;> simp [runLoop, hexp]
    | n+2 =>
      by_cases hexp : should_expand s = "expand"
      · have hrl : runLoop search (n+2) s tr
            = runLoop search n (expanded_retrieval search (expand_k s))
              (tr ++ [(expand_k s).expanded_k]) := by
          simp [runLoop, hexp]
        rw [hrl]
        have := ih n (by omega) (expanded_retrieval search (expand_k s))
          (tr ++ [(expand_k s).expanded_k])
        simp only [List.length_append, List.length_singleton] at this
        omega
      · simp [runLoop, hexp]

theorem runLoop_trace_shape (search : Search) (k : Nat) :
    ∀ (fuel : Nat) (s : RState) (tr : List Nat), s.k = k →
      ∃ j, (runLoop search fuel s tr).1 = tr ++ List.replicate j (k + 25) := by
  intro fuel
  induction fuel using Nat.strong_induction_on with
  | _ fuel ih =>
    intro s tr hk
    match fuel with
    | 0 => exact ⟨0, by simp [runLoop]⟩
    | 1 =>
      by_cases hexp : should_expand s = "expand" <;>
        exact ⟨0, by simp [runLoop, hexp]⟩
    | n+2 =>
      by_cases hexp : should_expand s = "expand"
      · have hrl : runLoop search (n+2) s tr
            = runLoop search n (expanded_retrieval search (expand_k s))
              (tr ++ [(expand_k s).expanded_k]) := by
          simp [runLoop, hexp]
        rcases ih n (by omega) (expanded_retrieval search (expand_k s))
          (tr ++ [(expand_k s).expanded_k]) (by simp [expanded_retrieval, expand_k, hk]) with ⟨j, hj⟩
        refine ⟨j + 1, ?_⟩
        rw [hrl, hj]
        have hek : (expand_k s).expanded_k = k + 25 := by simp [expand_k, hk]
        rw [hek, List.append_assoc, List.singleton_append, ← List.replicate_succ]
      · exact ⟨0, by simp [runLoop, hexp]⟩

theorem invoke_trace_shape (search : Search) (q : String) (k kd : Nat) :
    ∃ j, (retrieval_graph_invoke search q k kd).1 = k :: List.replicate j (k + 25) := by
  rcases runLoop_trace_shape search k 24
      (initial_retrieval search ⟨q, k, 0, kd, [], []⟩) [k] rfl with ⟨j, hj⟩
  exact ⟨j, by simpa [retrieval_graph_invoke] using hj⟩

theorem invoke_no_expand (search : Search) (q : String) (k kd : Nat)
    (h : kd ≤ (((search q k).map (fun c => c.1.doc_id)).dedup).length) :
    retrieval_graph_invoke search q k kd
      = ([k], aggregate_documents (initial_retrieval search ⟨q, k, 0, kd, [], []⟩)) := by
  have hue : ¬ should_expand (initial_retrieval search ⟨q, k, 0, kd, [], []⟩) = "expand" := by
    have hle : ¬ (unique_docs (initial_retrieval search ⟨q, k, 0, kd, [], []⟩)).length
        < (initial_retrieval search ⟨q, k, 0, kd, [], []⟩).k_docs := by
      simp only [unique_docs, initial_retrieval, not_lt]
      exact h
    simp [should_expand, hle]
  simp [retrieval_graph_invoke, runLoop, hue]

/-! ## RRF lemmas -/

theorem lookupD_cons (p : String × ℚ) (rest : ScoreMap) (key : String) :
    lookupD (p :: rest) key = if p.1 == key then p.2 else lookupD rest key := by
  by_cases h : (p.1 == key) = true <;> simp [lookupD, List.find?, h]

theorem lookupD_bumpScore (m : ScoreMap) (key id : String) (v : ℚ) :
    lookupD (bumpScore m key v) id = lookupD m id + (if id = key then v else 0) := by
  induction m with
  | nil =>
    by_cases h : (key == id) = true
    · have hik : id = key := (eq_of_beq h).symm
      calc lookupD (bumpScore [] key v) id = v := by
            rw [show bumpScore [] key v = [(key, v)] from rfl, lookupD_cons, if_pos h]
        _ = lookupD [] id + (if id = key then v else 0) := by
            rw [show lookupD [] id = 0 from rfl, if_pos hik, zero_add]
    · have hik : ¬ id = key := fun he => h (beq_iff_eq.mpr he.symm)
      calc lookupD (bumpScore [] key v) id = lookupD [] id := by
            rw [show bumpScore [] key v = [(key, v)] from rfl, lookupD_cons, if_neg h]
        _ = lookupD [] id + (if id = key then v else 0) := by
            rw [if_neg hik, add_zero]
  | cons p rest ih =>
    by_cases hp : (p.1 == key) = true
    · have hbump : bumpScore (p :: rest) key v = (p.1, p.2 + v) :: rest := by
        simp [bumpScore, hp]
      rw [hbump, lookupD_cons, lookupD_cons]
      by_cases hid : (p.1 == id) = true
      · have hik : id = key := by
          have h1 : p.1 = key := by simpa using hp
          have h2 : p.1 = id := by simpa using hid
          rw [← h2, h1]
        have h1 : p.1 = key := by simpa using hp
        simp [hid, hik, h1]
      · have hnk : ¬ id = key := by
          rintro rfl
          exact hid hp
        simp [hid, hnk]
    · have hbump : bumpScore (p :: rest) key v = p :: bumpScore rest key v := by
        simp [bumpScore, hp]
      rw [hbump, lookupD_cons, lookupD_cons, ih]
      by_cases hid : (p.1 == id) = true
      · have hnk : ¬ id = key := by
          have h2 : p.1 = id := by simpa using hid
          rintro rfl
          exact hp (by simpa using h2)
        simp [hid, hnk]
      · simp [hid, add_assoc]


theorem rrfFold_lookup (k : ℤ) (id : String) :
    ∀ (l : List String) (r : Nat) (scores sc : ScoreMap), l.Nodup →
      rrfFold k scores l r = some sc →
      lookupD sc id = lookupD scores id
        + (if id ∈ l then 1 / ((k : ℚ) + ((r : ℚ) + (l.indexOf id : ℚ))) else 0) := by
  intro l
  induction l with
  | nil =>
    intro r scores sc _ h
    cases h
    simp
  | cons d rest ih =>
    intro r scores sc hnd h
    rw [rrfFold] at h
    split at h
    · cases h
    · by_cases hid : id = d
      · subst hid
        have hnotin : id ∉ rest := (List.nodup_cons.mp hnd).1
        have := ih (r + 1) (bumpScore scores id (1 / ((k : ℚ) + (r : ℚ)))) sc
          (List.nodup_cons.mp hnd).2 h
        rw [this, lookupD_bumpScore]
        simp [hnotin, List.indexOf_cons_self]
      · have := ih (r + 1) (bumpScore scores d (1 / ((k : ℚ) + (r : ℚ)))) sc
          (List.nodup_cons.mp hnd).2 h
        rw [this, lookupD_bumpScore]
        by_cases hin : id ∈ rest
        · have hmem : id ∈ d :: rest := List.mem_cons_of_mem d hin
          have hidx : (d :: rest).indexOf id = rest.indexOf id + 1 :=
            List.indexOf_cons_ne rest (Ne.symm hid)
          simp only [hid, if_false, hin, if_true, hmem, hidx, add_zero]
          push_cast
          ring_nf
        · have hmem : id ∉ d :: rest := by
            simp [hid, hin]
          simp [hid, hin, hmem]

theorem rrfAll_lookup (k : ℤ) (id : String) :
    ∀ (ls : List (List String)) (scores m : ScoreMap), (∀ l ∈ ls, l.Nodup) →
      rrfAll k scores ls = some m →
      lookupD m id = lookupD scores id + specRrfScore ls k id := by
  intro ls
  induction ls with
  | nil =>
    intro scores m _ h
    cases h
    simp [specRrfScore]
  | cons l ls ih =>
    intro scores m hnd h
    rw [rrfAll] at h
    split at h
    · cases h
    · rename_i sc hsc
      have h1 := rrfFold_lookup k id l 1 scores sc (hnd l (List.mem_cons_self l ls)) hsc
      have h2 := ih sc m (fun l2 hl2 => hnd l2 (List.mem_cons_of_mem l hl2)) h
      rw [h2, h1]
      simp only [specRrfScore, List.map_cons, List.sum_cons]
      by_cases hin : id ∈ l <;> simp only [hin, if_true, if_false] <;> push_cast <;> ring

theorem rrf_score_lookup (ranked_lists : List (List String)) (k : ℤ) (m : ScoreMap)
    (hnd : ∀ l ∈ ranked_lists, l.Nodup) (h : rrf_score ranked_lists k = some m)
    (id : String) : lookupD m id = specRrfScore ranked_lists k id := by
  have := rrfAll_lookup k id ranked_lists [] m hnd h
  simpa [lookupD] using this

theorem specRrfScore_append (pre post : List (List String)) (l : List String) (k : ℤ)
    (id : String) :
    specRrfScore (pre ++ l :: post) k id
      = specRrfScore pre k id
        + (if id ∈ l then 1 / ((k : ℚ) + ((l.indexOf id : ℚ) + 1)) else 0)
        + specRrfScore post k id := by
  simp only [specRrfScore, List.map_append, List.sum_append, List.map_cons, List.sum_cons]
  ring

/-! ## Claim theorems -/

/-- Claim C1, counterexample: a `CitationNetwork` holding the single isolated
paper `"A"` (added via `add_paper`, touched by no edge) is non-empty, yet
`weighted_pagerank` returns the empty score map — the node `"A"` is assigned
no score at all, because the derived weighted graph is built from edges only. -/
theorem c1_counterexample :
    (add_paper emptyNetwork "A" none).nodes = ["A"] ∧
    weighted_pagerank (add_paper emptyNetwork "A" none) (85/100) (3/2) (1/5) 2025
      = some [] :=
  ⟨rfl, rfl⟩

/-- Claim C1, amended: whenever `weighted_pagerank` returns a score map (for
`0 ≤ alpha < 1` and non-negative `recency_boost` and `self_citation_penalty`),
every assigned score is strictly positive, and every node incident to at least
one citation edge is assigned a (strictly positive) score; isolated nodes are
absent from the returned map (see the counterexample). -/
theorem c1_positive_scores (cn : CitationNetwork)
    (alpha recency_boost self_citation_penalty : ℚ) (current_year : Int) (m : ScoreMap)
    (ha0 : 0 ≤ alpha) (ha1 : alpha < 1)
    (hrb : 0 ≤ recency_boost) (hpen : 0 ≤ self_citation_penalty)
    (h : weighted_pagerank cn alpha recency_boost self_citation_penalty current_year
      = some m) :
    (∀ p ∈ m, 0 < p.2) ∧
      ∀ v : String, (∃ e ∈ cn.edges, e.1 = v ∨ e.2 = v) → 0 < lookupD m v := by
  by_cases hedges : cn.edges = []
  · rw [weighted_pagerank, build_edges_nil cn _ _ _ hedges] at h
    have hm : m = [] := by simpa [pagerank] using h.symm
    subst hm
    refine ⟨fun p hp => absurd hp (List.not_mem_nil p), ?_⟩
    rintro v ⟨e, he, _⟩
    rw [hedges] at he
    exact absurd he (List.not_mem_nil e)
  · rw [weighted_pagerank] at h
    have hne : (buildWeightedGraph cn recency_boost self_citation_penalty current_year).nodes
        ≠ [] := build_nodes_ne_nil cn _ _ _ hedges
    have hw := build_weights_nonneg cn recency_boost self_citation_penalty current_year
      hrb hpen
    have hp := pagerank_pos _ alpha m hne hw ha0 ha1 h
    refine ⟨hp.2, ?_⟩
    intro v hv
    have hvn : v ∈ (buildWeightedGraph cn recency_boost self_citation_penalty
        current_year).nodes := (mem_build_nodes cn _ _ _ v).mpr hv
    have hvk : v ∈ m.map Prod.fst := hp.1 ▸ hvn
    rcases lookupD_mem m v hvk with ⟨p, hpm, _, hl⟩
    rw [hl]
    exact hp.2 p hpm

/-- Claim C1, witness: on the network with the single self-citation
`A → A`, `weighted_pagerank` converges to the map `{A ↦ 1}` and the amended
theorem yields the strictly positive score of `A`. -/
theorem c1_positive_scores_witness : 0 < lookupD [("A", (1:ℚ))] "A" := by
  have hpr : weighted_pagerank (add_citation emptyNetwork "A" "A") (85/100) (3/2) (1/5) 2025
      = some [("A", 1)] := by
    simp [weighted_pagerank, pagerank, buildWeightedGraph, add_citation, emptyNetwork,
      pgLoop, pgStep, l1Err, lookupD, outW, pgTol, addWEdge, addNodeCN, edgeWeight,
      recencyMult, getYear]
  exact (c1_positive_scores (add_citation emptyNetwork "A" "A") (85/100) (3/2) (1/5) 2025
    [("A", 1)] (by norm_num) (by norm_num) (by norm_num) (by norm_num) hpr).2 "A"
    ⟨("A", "A"), by simp [add_citation, emptyNetwork], Or.inl rfl⟩

/-- Claim C2: the code cannot aggregate.  `aggregate_documents` executes
`doc_map[doc_id].append(chunk, score)` — `list.append` takes one argument —
so it raises `TypeError` on every non-empty accumulated chunk list, instead
of returning the documented `doc_id`-grouped mapping; only the empty chunk
list survives (the loop body never runs). -/
theorem c2_aggregate_documents_raises :
    aggregate_documents ⟨"q", 5, 0, 3, [(⟨"t", some "d1"⟩, 1/2)], []⟩
      = .error .typeError ∧
    aggregate_documents ⟨"q", 5, 0, 3, [], []⟩ = .ok ⟨"q", 5, 0, 3, [], []⟩ :=
  ⟨rfl, rfl⟩

/-- Claim C3, counterexample: with a collaborator over a one-document corpus
and `k_docs = 2`, the expansion loop terminates at LangGraph's recursion
ceiling but *fails the request* with `GraphRecursionError` — it does not
proceed to aggregation and does not return the partial aggregation. -/
theorem c3_counterexample :
    (retrieval_graph_invoke oneDocSearch "q" 1 2).2 = .error .recursionError := rfl

/-- Claim C3, amended: the expansion loop is bounded — for every collaborator
the breadth trace has at most 13 entries (initial retrieval plus at most 12
expansion rounds within the default recursion limit of 25 supersteps) — and
for every collaborator whose corpus can never yield `k_docs` distinct
`doc_id`s the run terminates with `GraphRecursionError` (failing the request)
rather than looping forever; no partial aggregation is returned. -/
theorem c3_bounded_then_error :
    (∀ (search : Search) (q : String) (k kd : Nat),
      (retrieval_graph_invoke search q k kd).1.length ≤ 13) ∧
    (∀ (search : Search) (q : String) (k kd : Nat) (corpus : List (Option String)),
      (∀ kk : Nat, ∀ c ∈ search q kk, c.1.doc_id ∈ corpus) →
      corpus.dedup.length < kd →
      (retrieval_graph_invoke search q k kd).2 = .error .recursionError) := by
  constructor
  · intro search q k kd
    have h := runLoop_trace_le search 24 (initial_retrieval search ⟨q, k, 0, kd, [], []⟩) [k]
    exact h
  · intro search q k kd corpus hcorp hsmall
    have h2 := runLoop_stuck search q kd corpus hcorp hsmall 24
      (initial_retrieval search ⟨q, k, 0, kd, [], []⟩) [k] rfl rfl
      (fun c hc => hcorp k c hc)
    exact h2.1

/-- Claim C3, witness: the bounded-failure behaviour observed on the
one-document collaborator. -/
theorem c3_bounded_then_error_witness :
    (retrieval_graph_invoke oneDocSearch "q" 10 2).2 = .error .recursionError := by
  apply c3_bounded_then_error.2 oneDocSearch "q" 10 2 [some "d1"]
  · intro kk c hc
    have hc2 : c = (⟨"t", some "d1"⟩, 0) := by simpa [oneDocSearch] using hc
    subst hc2
    simp
  · simp

/-- Claim C4, counterexample: with initial breadth `k = 10`, the second and
third similarity-search calls (the first and second expansion rounds) both
query breadth `35 = k + 25`; the claim's strictly growing schedule would
require the third call to query `60 = k + 50`. -/
theorem c4_counterexample :
    (retrieval_graph_invoke oneDocSearch "q" 10 2).1[1]? = some 35 ∧
    (retrieval_graph_invoke oneDocSearch "q" 10 2).1[2]? = some 35 :=
  ⟨rfl, rfl⟩

/-- Claim C4, amended: `expand_k` computes `state["k"] + 25` from the
*initial* breadth every time, so the breadth trace of any run is the initial
`k` followed by some number of rounds all at the same breadth `k + 25`; the
breadth never grows beyond `k + 25`. -/
theorem c4_constant_expansion (search : Search) (q : String) (k kd : Nat) :
    ∃ j, (retrieval_graph_invoke search q k kd).1 = k :: List.replicate j (k + 25) :=
  invoke_trace_shape search q k kd

/-- Claim C5, counterexample: a non-empty citation graph with a node but no
edges (here built through `build_from_pdfs` with a reference-free paper)
yields the empty score map, whose values sum to `0`, not `1`. -/
theorem c5_counterexample :
    (build_from_pdfs emptyNetwork [("B", some 2020, [])]).nodes = ["B"] ∧
    weighted_pagerank (build_from_pdfs emptyNetwork [("B", some 2020, [])])
      (1/2) (3/2) (1/5) 2024 = some [] ∧
    sumValues [] ≠ 1 := by
  refine ⟨rfl, rfl, by norm_num [sumValues]⟩

/-- Claim C5, amended: whenever `weighted_pagerank` returns a score map, its
values sum to exactly `1` provided the citation graph has at least one edge;
when the graph has no edges — whether empty or holding only isolated nodes —
the returned map is empty (sum `0`).  The empty-graph half of the original
claim holds as stated. -/
theorem c5_sum_to_one (cn : CitationNetwork)
    (alpha recency_boost self_citation_penalty : ℚ) (current_year : Int) (m : ScoreMap)
    (h : weighted_pagerank cn alpha recency_boost self_citation_penalty current_year
      = some m) :
    (cn.edges ≠ [] → sumValues m = 1) ∧ (cn.edges = [] → m = []) := by
  by_cases hedges : cn.edges = []
  · rw [weighted_pagerank, build_edges_nil cn _ _ _ hedges] at h
    have hm : m = [] := by simpa [pagerank] using h.symm
    exact ⟨fun hne => absurd hedges hne, fun _ => hm⟩
  · rw [weighted_pagerank] at h
    exact ⟨fun _ => pagerank_sum _ alpha m (build_wf cn _ _ _)
        (build_nodes_ne_nil cn _ _ _ hedges) h,
      fun he => absurd he hedges⟩

/-- Claim C5, witness: on the self-citation network `A → A` the returned
scores sum to `1`. -/
theorem c5_sum_to_one_witness : sumValues [("A", (1:ℚ))] = 1 := by
  have hpr : weighted_pagerank (add_citation emptyNetwork "A" "A") (1/2) (3/2) (1/5) 2025
      = some [("A", 1)] := by
    simp [weighted_pagerank, pagerank, buildWeightedGraph, add_citation, emptyNetwork,
      pgLoop, pgStep, l1Err, lookupD, outW, pgTol, addWEdge, addNodeCN, edgeWeight,
      recencyMult, getYear]
  exact (c5_sum_to_one (add_citation emptyNetwork "A" "A") (1/2) (3/2) (1/5) 2025
    [("A", 1)] hpr).1 (by simp [add_citation, emptyNetwork])

/-- Claim C6: the `GET /search` handler never returns a ranked list — it
raises for every collaborator and query.  The retrieval service either hits
the aggregation `TypeError` (two-argument `list.append`) or the expansion
recursion ceiling, and even an `ok` result would make `main.search` raise
`AttributeError` on `results.keys()` (a list has no `keys`).  Concretely,
the two-document collaborator with the default endpoint parameters
(`k_docs=3`, `k_chunks=5`) ends in `GraphRecursionError`. -/
theorem c6_search_endpoint_raises :
    (∀ (search : Search) (query : String), ∃ e, search_endpoint search query = .error e) ∧
    search_endpoint twoDocSearch "graph neural networks for citation analysis"
      = .error .recursionError := by
  constructor
  · intro search query
    cases hrs : retrieval_service search query 3 5 60 with
    | error e => exact ⟨e, by simp [search_endpoint, hrs]⟩
    | ok r => exact ⟨.attributeError, by simp [search_endpoint, hrs]⟩
  · rfl

/-- Claim C7: `rrf_score` computes, for every ID, the sum over exactly the
input lists containing that ID of `1 / (rrf_k + rank)` with `rank` 1-based
(zero from lists not containing it) — stated for well-formed ranked lists
(unique IDs per list, as §4.2 requires of inputs) whenever the call returns
(Python raises `ZeroDivisionError` when some `rrf_k + rank` is zero, which
cannot happen for the non-negative default `rrf_k`). -/
theorem c7_rrf_formula (ranked_lists : List (List String)) (k : ℤ) (m : ScoreMap)
    (hnd : ∀ l ∈ ranked_lists, l.Nodup) (h : rrf_score ranked_lists k = some m)
    (id : String) : lookupD m id = specRrfScore ranked_lists k id :=
  rrf_score_lookup ranked_lists k m hnd h id

/-- Claim C7, witness: the spec's concrete example — lists
`["doc1","doc2","doc3"]` and `["doc2","doc3","doc4"]` with `rrf_k = 3` —
matches the formula and exhibits `score(doc2) > score(doc1)` and
`score(doc3) > score(doc4)`. -/
theorem c7_rrf_formula_witness :
    lookupD [("doc1", (1:ℚ)/4), ("doc2", 9/20), ("doc3", 11/30), ("doc4", 1/6)] "doc2"
      = specRrfScore [["doc1", "doc2", "doc3"], ["doc2", "doc3", "doc4"]] 3 "doc2" ∧
    lookupD [("doc1", (1:ℚ)/4), ("doc2", 9/20), ("doc3", 11/30), ("doc4", 1/6)] "doc2"
      > lookupD [("doc1", (1:ℚ)/4), ("doc2", 9/20), ("doc3", 11/30), ("doc4", 1/6)] "doc1" ∧
    lookupD [("doc1", (1:ℚ)/4), ("doc2", 9/20), ("doc3", 11/30), ("doc4", 1/6)] "doc3"
      > lookupD [("doc1", (1:ℚ)/4), ("doc2", 9/20), ("doc3", 11/30), ("doc4", 1/6)] "doc4" := by
  have hsome : rrf_score [["doc1", "doc2", "doc3"], ["doc2", "doc3", "doc4"]] 3
      = some [("doc1", (1:ℚ)/4), ("doc2", 9/20), ("doc3", 11/30), ("doc4", 1/6)] := by
    simp [rrf_score, rrfAll, rrfFold, bumpScore]
    norm_num
  refine ⟨c7_rrf_formula _ 3 _ ?_ hsome "doc2", ?_, ?_⟩
  · intro l hl
    rcases List.mem_cons.mp hl with rfl | hl2
    · decide
    · rcases List.mem_cons.mp hl2 with rfl | hl3
      · decide
      · cases hl3
  · have e1 : lookupD [("doc1", (1:ℚ)/4), ("doc2", 9/20), ("doc3", 11/30), ("doc4", 1/6)]
        "doc2" = 9/20 := rfl
    have e2 : lookupD [("doc1", (1:ℚ)/4), ("doc2", 9/20), ("doc3", 11/30), ("doc4", 1/6)]
        "doc1" = 1/4 := rfl
    rw [e1, e2]
    norm_num
  · have e3 : lookupD [("doc1", (1:ℚ)/4), ("doc2", 9/20), ("doc3", 11/30), ("doc4", 1/6)]
        "doc3" = 11/30 := rfl
    have e4 : lookupD [("doc1", (1:ℚ)/4), ("doc2", 9/20), ("doc3", 11/30), ("doc4", 1/6)]
        "doc4" = 1/6 := rfl
    rw [e3, e4]
    norm_num

/-- Claim C8: `rrf_score` is strictly monotone in rank.  If one input list is
replaced so that `id` moves to a strictly better (smaller) 1-based rank,
while all other lists (hence `id`'s positions in them) are unchanged, then
`id`'s fused score strictly increases — stated for unique-ID lists and a
non-negative `rrf_k` (the documented parameter regime; with a negative
`rrf_k` the reciprocal changes sign across `rank = -rrf_k` and monotonicity
genuinely fails). -/
theorem c8_rrf_monotone (pre post : List (List String)) (l1 l2 : List String)
    (id : String) (k : ℤ) (m1 m2 : ScoreMap) (hk : 0 ≤ k)
    (hnd1 : ∀ l ∈ pre ++ l1 :: post, l.Nodup)
    (hnd2 : ∀ l ∈ pre ++ l2 :: post, l.Nodup)
    (hin1 : id ∈ l1) (hin2 : id ∈ l2)
    (hlt : l2.indexOf id < l1.indexOf id)
    (h1 : rrf_score (pre ++ l1 :: post) k = some m1)
    (h2 : rrf_score (pre ++ l2 :: post) k = some m2) :
    lookupD m1 id < lookupD m2 id := by
  rw [rrf_score_lookup _ k m1 hnd1 h1 id, rrf_score_lookup _ k m2 hnd2 h2 id,
    specRrfScore_append, specRrfScore_append]
  have hq : ((l2.indexOf id : ℚ)) < ((l1.indexOf id : ℚ)) := by exact_mod_cast hlt
  have hkq : (0:ℚ) ≤ (k:ℚ) := by exact_mod_cast hk
  have hi2 : (0:ℚ) ≤ (l2.indexOf id : ℚ) := by positivity
  have hpos2 : (0:ℚ) < (k:ℚ) + ((l2.indexOf id : ℚ) + 1) := by linarith
  have hfrac : 1 / ((k:ℚ) + ((l1.indexOf id : ℚ) + 1))
      < 1 / ((k:ℚ) + ((l2.indexOf id : ℚ) + 1)) :=
    one_div_lt_one_div_of_lt hpos2 (by linarith)
  simp only [hin1, hin2, if_true]
  linarith

/-- Claim C8, witness: moving `"b"` from rank 2 in `["a","b"]` to rank 1 in
`["b","a"]` strictly increases its fused score (`1/5 < 1/4` at `rrf_k = 3`). -/
theorem c8_rrf_monotone_witness :
    lookupD [("a", (1:ℚ)/4), ("b", 1/5)] "b" < lookupD [("b", (1:ℚ)/4), ("a", 1/5)] "b" := by
  have hs1 : rrf_score [["a", "b"]] 3 = some [("a", (1:ℚ)/4), ("b", 1/5)] := by
    simp [rrf_score, rrfAll, rrfFold, bumpScore]
    norm_num
  have hs2 : rrf_score [["b", "a"]] 3 = some [("b", (1:ℚ)/4), ("a", 1/5)] := by
    simp [rrf_score, rrfAll, rrfFold, bumpScore]
    norm_num
  exact c8_rrf_monotone [] [] ["a", "b"] ["b", "a"] "b" 3 _ _ (by norm_num)
    (by intro l hl; rcases List.mem_singleton.mp hl with rfl; decide)
    (by intro l hl; rcases List.mem_singleton.mp hl with rfl; decide)
    (by decide) (by decide) (by decide) hs1 hs2

/-- Claim C9: if the first retrieval round already spans at least `k_docs`
distinct `doc_id`s, the orchestrator performs no expansion round — exactly
one similarity search at the initial breadth `k` happens and control goes
straight to `aggregate_documents`; conversely, whenever the distinct
`doc_id` count of the accumulated chunks is below `k_docs`, `should_expand`
chooses `"expand"`. -/
theorem c9_no_expand (search : Search) (q : String) (k kd : Nat)
    (h : kd ≤ (((search q k).map (fun c => c.1.doc_id)).dedup).length) :
    (retrieval_graph_invoke search q k kd).1 = [k] ∧
    (retrieval_graph_invoke search q k kd).2
      = aggregate_documents (initial_retrieval search ⟨q, k, 0, kd, [], []⟩) ∧
    ∀ s : RState, (unique_docs s).length < s.k_docs → should_expand s = "expand" := by
  have hne := invoke_no_expand search q k kd h
  exact ⟨by rw [hne], by rw [hne], fun s hs => should_expand_of_lt s hs⟩

/-- Claim C9, witness: the two-document collaborator with `k_docs = 2`
satisfies the target on the first round, and the breadth trace is exactly
`[7]` — the initial `k`, with no expansion round. -/
theorem c9_no_expand_witness : (retrieval_graph_invoke twoDocSearch "q" 7 2).1 = [7] :=
  (c9_no_expand twoDocSearch "q" 7 2 (by decide)).1

/-- Claim C10: on every `CitationNetwork` reachable by any sequence of
`add_paper`, `add_citation` and `build_from_pdfs` calls, and every paper in
the graph, `get_citation_count` (the in-degree) equals the length of the
`get_cited_by` predecessor list. -/
theorem c10_in_degree (ops : List NetOp) (p : String)
    (_hp : p ∈ (applyOps ops).nodes) :
    get_citation_count (applyOps ops) p = (get_cited_by (applyOps ops) p).length := by
  unfold get_citation_count get_cited_by
  rw [List.length_map, List.countP_eq_length_filter]

/-- Claim C10, witness: after `add_citation("B", "A")`, paper `"A"` has
citation count 1 and a one-element cited-by list. -/
theorem c10_in_degree_witness :
    get_citation_count (applyOps [NetOp.citation "B" "A"]) "A"
      = (get_cited_by (applyOps [NetOp.citation "B" "A"]) "A").length :=
  c10_in_degree [NetOp.citation "B" "A"] "A" (by decide)

end PaperExplorer
